import Mathlib

/-!
Verification of the auctioneer repository's auction-lifecycle core.

The definitions below are a shallow embedding of `src/db.py` (SQLite ledger),
`src/cogs/auction.py` (command layer / state machine) and `src/bot.py`
(expiry scheduler and completion settlement).  The auctions table is modelled
as a list of rows; SQL statements become the corresponding list traversals.
Machine integers of the source are modelled as `Nat`/`Int` (all quantities in
the source are Python ints).  External effectful calls (chat platform,
Google-Sheets oracle) are modelled by boolean outcome parameters.
-/

/-- A row of the `auctions` table (schema in `db.py`, `init_db`).
`current_bidder_id` / `current_bidder_name` are nullable columns. -/
structure Auction where
  thread_id : Nat
  channel_id : Nat
  guild_id : Nat
  player_name : String
  current_bid : Nat
  current_bidder_id : Option Nat
  current_bidder_name : Option String
  created_at : Nat
  last_bid_at : Nat
  status : String
deriving Repr, DecidableEq

/-- The auctions table: a list of rows. -/
abbrev DB := List Auction

/-- Well-formedness enforced by the `thread_id INTEGER PRIMARY KEY`
constraint: thread ids are pairwise distinct. -/
def DBwf (db : DB) : Prop := (db.map Auction.thread_id).Nodup

instance (db : DB) : Decidable (DBwf db) := by
  unfold DBwf; infer_instance

/-- `db.py get_auction_by_thread`: `SELECT ... FROM auctions WHERE thread_id = ?`.
Note the SQL has no status filter, so the row is returned whatever its status. -/
def get_auction_by_thread : DB → Nat → Option Auction
  | [], _ => none
  | a :: rest, tid => if a.thread_id == tid then some a else get_auction_by_thread rest tid

/-- Status of the row stored for a thread, if any. -/
def statusAt (db : DB) (tid : Nat) : Option String :=
  (get_auction_by_thread db tid).map Auction.status

/-- Current bid of the row stored for a thread (0 when no row exists). -/
def currentBidAt (db : DB) (tid : Nat) : Nat :=
  match get_auction_by_thread db tid with
  | some a => a.current_bid
  | none => 0

/-- Current bidder of the row stored for a thread. -/
def bidderAt (db : DB) (tid : Nat) : Option Nat :=
  match get_auction_by_thread db tid with
  | some a => a.current_bidder_id
  | none => none

/-- `db.py create_auction`: INSERT with `created_at = last_bid_at = now`,
status `'active'`; an `IntegrityError` (duplicate primary key) yields `None`
with no mutation; on success the row is re-read and returned. -/
def create_auction (db : DB) (now : Nat) (thread_id channel_id guild_id : Nat)
    (player_name : String) (current_bid current_bidder_id : Nat)
    (current_bidder_name : String) : Option Auction × DB :=
  match get_auction_by_thread db thread_id with
  | some _ => (none, db)
  | none =>
    let row : Auction :=
      { thread_id := thread_id, channel_id := channel_id, guild_id := guild_id
        player_name := player_name, current_bid := current_bid
        current_bidder_id := some current_bidder_id
        current_bidder_name := some current_bidder_name
        created_at := now, last_bid_at := now, status := "active" }
    let db2 := db ++ [row]
    (get_auction_by_thread db2 thread_id, db2)

/-- `db.py register_existing_auction`: like create but with caller-supplied
timestamps and possibly-null bidder id. -/
def register_existing_auction (db : DB) (thread_id channel_id guild_id : Nat)
    (player_name : String) (current_bid : Nat) (current_bidder_id : Option Nat)
    (current_bidder_name : String) (created_at last_bid_at : Nat) :
    Option Auction × DB :=
  match get_auction_by_thread db thread_id with
  | some _ => (none, db)
  | none =>
    let row : Auction :=
      { thread_id := thread_id, channel_id := channel_id, guild_id := guild_id
        player_name := player_name, current_bid := current_bid
        current_bidder_id := current_bidder_id
        current_bidder_name := some current_bidder_name
        created_at := created_at, last_bid_at := last_bid_at, status := "active" }
    let db2 := db ++ [row]
    (get_auction_by_thread db2 thread_id, db2)

/-- The UPDATE statement inside `db.py place_bid`:
`UPDATE auctions SET current_bid = ?, current_bidder_id = ?,
current_bidder_name = ?, last_bid_at = ? WHERE thread_id = ? AND status = 'active'`.
Only the status is re-checked at write time. -/
def bid_update (db : DB) (now thread_id amount bidder_id : Nat)
    (bidder_name : String) : DB :=
  db.map (fun a =>
    if a.thread_id == thread_id && a.status == "active" then
      { a with current_bid := amount, current_bidder_id := some bidder_id
               current_bidder_name := some bidder_name, last_bid_at := now }
    else a)

/-- The read-phase checks of `db.py place_bid`: row exists and
`amount > current_bid` (checked against the value read, before the write). -/
def place_bid_checks (db : DB) (thread_id amount : Nat) : Bool :=
  match get_auction_by_thread db thread_id with
  | none => false
  | some a => !(amount ≤ a.current_bid)

/-- `db.py place_bid`: read, validate `amount > current_bid`, then run the
conditional UPDATE and re-read the row. -/
def place_bid (db : DB) (now thread_id amount bidder_id : Nat)
    (bidder_name : String) : Option Auction × DB :=
  match get_auction_by_thread db thread_id with
  | none => (none, db)
  | some a =>
    if amount ≤ a.current_bid then (none, db)
    else
      let db2 := bid_update db now thread_id amount bidder_id bidder_name
      (get_auction_by_thread db2 thread_id, db2)

/-- Two concurrent `place_bid` coroutines that both performed their read
phase against the same snapshot `db` (the event loop may interleave them at
the await point between the read connection and the write connection), then
commit their UPDATEs in order. -/
def interleaved_two_bids (db : DB) (tid now1 amt1 uid1 : Nat) (nm1 : String)
    (now2 amt2 uid2 : Nat) (nm2 : String) : DB :=
  let ok1 := place_bid_checks db tid amt1
  let ok2 := place_bid_checks db tid amt2
  let db1 := if ok1 then bid_update db now1 tid amt1 uid1 nm1 else db
  if ok2 then bid_update db1 now2 tid amt2 uid2 nm2 else db1

/-- `db.py get_committed_pom_for_user`: `SELECT COALESCE(SUM(current_bid), 0)
FROM auctions WHERE status = 'active' AND current_bidder_id = ?`. -/
def get_committed_pom_for_user : DB → Nat → Nat
  | [], _ => 0
  | a :: rest, uid =>
    (if a.status == "active" && a.current_bidder_id == some uid then a.current_bid else 0)
      + get_committed_pom_for_user rest uid

/-- The same sum but excluding one thread's row (used to state the
budget-check claim: commitment excluding the auction being bid on). -/
def committed_pom_excluding : DB → Nat → Nat → Nat
  | [], _, _ => 0
  | a :: rest, uid, tid =>
    (if a.status == "active" && a.current_bidder_id == some uid && a.thread_id != tid
       then a.current_bid else 0)
      + committed_pom_excluding rest uid tid

/-- `db.py get_active_auctions_for_reminders`: `SELECT ... WHERE status = 'active'`. -/
def get_active_auctions_for_reminders (db : DB) : List Auction :=
  db.filter (fun a => a.status == "active")

/-- `db.py complete_auction`: `UPDATE auctions SET status = 'completed' WHERE
thread_id = ? AND status = 'active'`, then an unconditional re-read of the
row (the SELECT has no status filter). -/
def complete_auction (db : DB) (thread_id : Nat) : Option Auction × DB :=
  let db2 := db.map (fun a =>
    if a.thread_id == thread_id && a.status == "active" then
      { a with status := "completed" }
    else a)
  (get_auction_by_thread db2 thread_id, db2)

/-- `BID_EXPIRY_HOURS = 24` (both `bot.py` and `cogs/auction.py`). -/
def BID_EXPIRY_HOURS : Nat := 24

/-- `cogs/auction.py _seconds_until_expiry`: `max(0, last_bid_at + 24h - now)`;
natural-number subtraction truncates at zero, mirroring the `max(0, _)`. -/
def seconds_until_expiry (last_bid_at now : Nat) : Nat :=
  last_bid_at + BID_EXPIRY_HOURS * 3600 - now

/-- `bot.py REMINDER_THRESHOLDS = [6, 1]` (hours before expiry). -/
def REMINDER_THRESHOLDS : List Nat := [6, 1]

/-- The window test of `bot.py _check_expiry_reminders`:
`threshold - 0.5 < hours_left <= threshold`, stated over seconds left
(`hours_left = seconds_left / 3600`), which is the exact-arithmetic form of
the source's comparison. -/
def in_reminder_window (h s : Nat) : Bool :=
  decide (3600 * h - 1800 < s ∧ s ≤ 3600 * h)

/-- The inner threshold loop of `bot.py _check_expiry_reminders` for one
auction at one sweep iteration.  `sent` is the marker set for the auction's
`(thread_id, last_bid_at)` key; `s` the observed seconds left; `ok th`
whether the chat-platform send of the threshold-`th` reminder succeeds.
The marker is added only after a successful send (an `HTTPException` is
caught and logged without marking).  Returns the new marker set and the list
of `(threshold, seconds_left)` reminders actually delivered. -/
def sweep_thresholds : List Nat → List Nat → Nat → (Nat → Bool) → List Nat × List (Nat × Nat)
  | [], sent, _, _ => (sent, [])
  | th :: rest, sent, s, ok =>
    if th ∈ sent then sweep_thresholds rest sent s ok
    else if in_reminder_window th s then
      if ok th then
        let r := sweep_thresholds rest (sent ++ [th]) s ok
        (r.1, (th, s) :: r.2)
      else sweep_thresholds rest sent s ok
    else sweep_thresholds rest sent s ok

/-- A sequence of sweep iterations over one fixed `(thread_id, last_bid_at)`
epoch: each iteration observes a seconds-left value and a delivery outcome
for each threshold, threading the marker set. -/
def sweep_run (sent : List Nat) : List (Nat × (Nat → Bool)) → List Nat × List (Nat × Nat)
  | [] => (sent, [])
  | (s, ok) :: rest =>
    let r1 := sweep_thresholds REMINDER_THRESHOLDS sent s ok
    let r2 := sweep_run r1.1 rest
    (r2.1, r1.2 ++ r2.2)

/-- Number of reminders delivered for threshold `h` in a delivery trace. -/
def count_threshold (h : Nat) (out : List (Nat × Nat)) : Nat :=
  (out.filter (fun p => p.1 == h)).length

/-- Outcome of the `/bid` command (`cogs/auction.py bid_command`), one
constructor per early-return branch. -/
inductive BidOutcome where
  | notAuction
  | completedAuction
  | wrongChannel
  | notHigher
  | selfBid
  | notInSheet
  | overBudget
  | dbRejected
  | success (a : Auction)
deriving Repr, DecidableEq

/-- Whether a bid-command outcome is the success case. -/
def isSuccess : BidOutcome → Bool
  | .success _ => true
  | _ => false

/-- The designated-channel gate of `bid_command` (`auction["channel_id"] !=
AUCTION_CHANNEL_ID`, skipped when no channel is configured). -/
def chan_mismatch (configured : Option Nat) (a : Auction) : Bool :=
  match configured with
  | some c => a.channel_id != c
  | none => false

/-- `cogs/auction.py bid_command`: the full validation pipeline in source
order — row lookup, completed-status check, channel check, amount check,
self-outbid check, oracle balance lookup (`balances uid = none` models a user
absent from the POM Balance sheet), budget check
`amount > balance - committed`, then `db.place_bid`. -/
def bid_command (db : DB) (balances : Nat → Option Int) (chan : Option Nat)
    (now tid uid : Nat) (nm : String) (amount : Nat) : BidOutcome × DB :=
  match get_auction_by_thread db tid with
  | none => (.notAuction, db)
  | some auction =>
    if auction.status == "completed" then (.completedAuction, db)
    else if chan_mismatch chan auction then (.wrongChannel, db)
    else if amount ≤ auction.current_bid then (.notHigher, db)
    else if auction.current_bidder_id == some uid then (.selfBid, db)
    else
      match balances uid with
      | none => (.notInSheet, db)
      | some balance =>
        let committed : Int := get_committed_pom_for_user db uid
        let available : Int := balance - committed
        if (amount : Int) > available then (.overBudget, db)
        else
          match place_bid db now tid amount uid nm with
          | (none, db2) => (.dbRejected, db2)
          | (some a, db2) => (.success a, db2)

/-- An operation targeting one auction thread: a `/bid` command or the
completion sweep marking it completed. -/
inductive AuctionOp where
  | bid (now uid : Nat) (nm : String) (amount : Nat)
  | complete
deriving Repr

/-- Apply one operation to the ledger. -/
def apply_op (balances : Nat → Option Int) (chan : Option Nat) (tid : Nat)
    (db : DB) : AuctionOp → DB
  | .bid now uid nm amount => (bid_command db balances chan now tid uid nm amount).2
  | .complete => (complete_auction db tid).2

/-- Run a sequence of operations on one auction thread. -/
def run_ops (balances : Nat → Option Int) (chan : Option Nat) (tid : Nat)
    (db : DB) (ops : List AuctionOp) : DB :=
  ops.foldl (apply_op balances chan tid) db

/-- Outcomes of the external calls made while settling one expired auction
(`bot.py _check_auction_completions`, lines after the `complete_auction`
call).  `appendOk = false` models `append_completed_auction` raising a
transient error; `deductRaises` models `deduct_pom` raising; `deductOk`
models its boolean result when it returns. -/
structure SettleEnv where
  threadFetchOk : Bool
  threadSendOk : Bool
  threadEditOk : Bool
  channelFetchOk : Bool
  channelSendOk : Bool
  appendOk : Bool
  deductRaises : Bool
  deductOk : Bool
  warnSendOk : Bool
  pinUpdateOk : Bool
deriving Repr, DecidableEq

/-- Which settlement side effects were attempted / succeeded for one
expired auction. -/
structure SettleOutcome where
  threadAnnounced : Bool
  threadLocked : Bool
  channelAnnounced : Bool
  appendAttempted : Bool
  appendSucceeded : Bool
  debitAttempted : Bool
  debitApplied : Bool
  operatorWarned : Bool
  pinRefreshAttempted : Bool
deriving Repr, DecidableEq

/-- No settlement side effect performed. -/
def noSettlement : SettleOutcome :=
  { threadAnnounced := false, threadLocked := false, channelAnnounced := false
    appendAttempted := false, appendSucceeded := false
    debitAttempted := false, debitApplied := false
    operatorWarned := false, pinRefreshAttempted := false }

/-- The settlement steps run after `complete_auction` returned a row
(`bot.py` lines 122-197), translated statement by statement:
thread fetch failure `continue`s (skipping every step); the thread
announcement and the lock each swallow their own error; channel fetch
failure `continue`s (skipping the Sheets block and the pin refresh); the
channel announcement swallows its own error; ONE try-block covers both the
history append and the POM debit, with `logger.exception` in its handler;
the pinned-list refresh has its own try-block. -/
def run_settlement (env : SettleEnv) (bidderId : Option Nat) : SettleOutcome :=
  if !env.threadFetchOk then noSettlement
  else
    let tAnn := env.threadSendOk
    let tLock := env.threadEditOk
    if !env.channelFetchOk then
      { noSettlement with threadAnnounced := tAnn, threadLocked := tLock }
    else
      let cAnn := env.channelSendOk
      if !env.appendOk then
        -- append raised: the shared except-handler logs; the debit line is never reached
        { threadAnnounced := tAnn, threadLocked := tLock, channelAnnounced := cAnn
          appendAttempted := true, appendSucceeded := false
          debitAttempted := false, debitApplied := false
          operatorWarned := true, pinRefreshAttempted := true }
      else
        match bidderId with
        | none =>
          { threadAnnounced := tAnn, threadLocked := tLock, channelAnnounced := cAnn
            appendAttempted := true, appendSucceeded := true
            debitAttempted := false, debitApplied := false
            operatorWarned := false, pinRefreshAttempted := true }
        | some _ =>
          if env.deductRaises then
            { threadAnnounced := tAnn, threadLocked := tLock, channelAnnounced := cAnn
              appendAttempted := true, appendSucceeded := true
              debitAttempted := true, debitApplied := false
              operatorWarned := true, pinRefreshAttempted := true }
          else if env.deductOk then
            { threadAnnounced := tAnn, threadLocked := tLock, channelAnnounced := cAnn
              appendAttempted := true, appendSucceeded := true
              debitAttempted := true, debitApplied := true
              operatorWarned := false, pinRefreshAttempted := true }
          else
            { threadAnnounced := tAnn, threadLocked := tLock, channelAnnounced := cAnn
              appendAttempted := true, appendSucceeded := true
              debitAttempted := true, debitApplied := false
              operatorWarned := true, pinRefreshAttempted := true }

/-- One auction's turn inside the completion sweep
(`bot.py _check_auction_completions`): if the bid expired
(`seconds_left <= 0`), mark it completed in the DB; if `complete_auction`
returned `None` (no row), `continue`; otherwise run the settlement steps. -/
def check_expired_auction (db : DB) (env : SettleEnv) (now : Nat)
    (a : Auction) : DB × SettleOutcome :=
  if seconds_until_expiry a.last_bid_at now = 0 then
    match complete_auction db a.thread_id with
    | (none, db2) => (db2, noSettlement)
    | (some _, db2) => (db2, run_settlement env a.current_bidder_id)
  else (db, noSettlement)

/-- All fields of a row except `status` (used to state that completion
touches only the status column). -/
def stripStatus (a : Auction) :
    Nat × Nat × Nat × String × Nat × Option Nat × Option String × Nat × Nat :=
  (a.thread_id, a.channel_id, a.guild_id, a.player_name, a.current_bid,
   a.current_bidder_id, a.current_bidder_name, a.created_at, a.last_bid_at)

/-- Shorthand for building a concrete auctions row in witnesses. -/
def mkRow (tid cid bid : Nat) (bidder : Option Nat) (lba : Nat)
    (st : String) : Auction :=
  { thread_id := tid, channel_id := cid, guild_id := 1, player_name := "P"
    current_bid := bid, current_bidder_id := bidder
    current_bidder_name := some "N"
    created_at := 0, last_bid_at := lba, status := st }

/-- A settlement environment in which only the history append fails. -/
def settleEnvAppendFails : SettleEnv :=
  { threadFetchOk := true, threadSendOk := true, threadEditOk := true
    channelFetchOk := true, channelSendOk := true, appendOk := false
    deductRaises := false, deductOk := true, warnSendOk := true
    pinUpdateOk := true }

/-- A settlement environment in which every external call succeeds. -/
def settleEnvAllOk : SettleEnv :=
  { threadFetchOk := true, threadSendOk := true, threadEditOk := true
    channelFetchOk := true, channelSendOk := true, appendOk := true
    deductRaises := false, deductOk := true, warnSendOk := true
    pinUpdateOk := true }

/-! ## Helper lemmas about the ledger embedding -/

theorem get_map_pres (f : Auction → Auction)
    (hf : ∀ a, (f a).thread_id = a.thread_id) (db : DB) (tid : Nat) :
    get_auction_by_thread (db.map f) tid
      = Option.map f (get_auction_by_thread db tid) := by
  induction db with
  | nil => rfl
  | cons a rest ih =>
    simp only [List.map_cons, get_auction_by_thread, hf]
    by_cases h : a.thread_id = tid
    · simp [h]
    · simp [h, ih]

theorem get_mem (db : DB) (tid : Nat) (a : Auction)
    (h : get_auction_by_thread db tid = some a) : a ∈ db ∧ a.thread_id = tid := by
  induction db with
  | nil => simp [get_auction_by_thread] at h
  | cons b rest ih =>
    simp only [get_auction_by_thread] at h
    by_cases hb : b.thread_id = tid
    · simp [hb] at h
      exact ⟨by simp [h], by rw [← h]; exact hb⟩
    · simp [hb] at h
      obtain ⟨h1, h2⟩ := ih h
      exact ⟨List.mem_cons_of_mem _ h1, h2⟩

theorem get_none (db : DB) (tid : Nat)
    (h : get_auction_by_thread db tid = none) : ∀ a ∈ db, a.thread_id ≠ tid := by
  induction db with
  | nil => simp
  | cons b rest ih =>
    simp only [get_auction_by_thread] at h
    by_cases hb : b.thread_id = tid
    · simp [hb] at h
    · intro a ha
      rcases List.mem_cons.mp ha with rfl | ha2
      · exact hb
      · exact ih (by simpa [hb] using h) a ha2

theorem get_mem_wf (db : DB) (hwf : DBwf db) (a : Auction) (ha : a ∈ db) :
    get_auction_by_thread db a.thread_id = some a := by
  induction db with
  | nil => simp at ha
  | cons b rest ih =>
    have hnd := List.nodup_cons.mp hwf
    rcases List.mem_cons.mp ha with rfl | ha2
    · simp [get_auction_by_thread]
    · have hne : b.thread_id ≠ a.thread_id := by
        intro hc
        exact hnd.1 (hc ▸ List.mem_map_of_mem Auction.thread_id ha2)
      simp only [get_auction_by_thread]
      simp [hne, ih hnd.2 ha2]

theorem get_unique_wf (db : DB) (hwf : DBwf db) (tid : Nat) (a : Auction)
    (hget : get_auction_by_thread db tid = some a) (b : Auction)
    (hb : b ∈ db) (hbtid : b.thread_id = tid) : b = a := by
  have := get_mem_wf db hwf b hb
  rw [hbtid, hget] at this
  exact (Option.some.injEq _ _ ▸ this).symm

theorem map_eq_self_of_agree (f : Auction → Auction) (l : List Auction)
    (h : ∀ x ∈ l, f x = x) : l.map f = l := by
  induction l with
  | nil => rfl
  | cons a rest ih =>
    simp only [List.map_cons]
    rw [h a (List.mem_cons_self a rest), ih (fun x hx => h x (List.mem_cons_of_mem _ hx))]

theorem currentBidAt_eq (db : DB) (tid : Nat) (a : Auction)
    (h : get_auction_by_thread db tid = some a) :
    currentBidAt db tid = a.current_bid := by
  unfold currentBidAt; rw [h]

theorem currentBidAt_none (db : DB) (tid : Nat)
    (h : get_auction_by_thread db tid = none) : currentBidAt db tid = 0 := by
  unfold currentBidAt; rw [h]

theorem bidderAt_eq (db : DB) (tid : Nat) (a : Auction)
    (h : get_auction_by_thread db tid = some a) :
    bidderAt db tid = a.current_bidder_id := by
  unfold bidderAt; rw [h]

theorem bid_update_get (db : DB) (now tid amt uid : Nat) (nm : String) :
    get_auction_by_thread (bid_update db now tid amt uid nm) tid
      = Option.map (fun a =>
          if a.thread_id == tid && a.status == "active" then
            { a with current_bid := amt, current_bidder_id := some uid
                     current_bidder_name := some nm, last_bid_at := now }
          else a)
        (get_auction_by_thread db tid) :=
  get_map_pres _ (fun x => by by_cases hx : (x.thread_id == tid && x.status == "active") = true <;> simp [hx]) db tid

theorem complete_update_get (db : DB) (tid : Nat) :
    get_auction_by_thread
        (db.map (fun a =>
          if a.thread_id == tid && a.status == "active" then
            { a with status := "completed" }
          else a)) tid
      = Option.map (fun a =>
          if a.thread_id == tid && a.status == "active" then
            { a with status := "completed" }
          else a)
        (get_auction_by_thread db tid) :=
  get_map_pres _ (fun x => by by_cases hx : (x.thread_id == tid && x.status == "active") = true <;> simp [hx]) db tid

theorem place_bid_snd (db : DB) (now tid amt uid : Nat) (nm : String)
    (a : Auction) (hget : get_auction_by_thread db tid = some a)
    (hle : ¬ amt ≤ a.current_bid) :
    (place_bid db now tid amt uid nm).2 = bid_update db now tid amt uid nm := by
  unfold place_bid
  rw [hget]
  simp [hle]

theorem place_bid_mono (db : DB) (now tid amt uid : Nat) (nm : String) :
    currentBidAt db tid ≤ currentBidAt (place_bid db now tid amt uid nm).2 tid := by
  cases hget : get_auction_by_thread db tid with
  | none =>
    have : (place_bid db now tid amt uid nm).2 = db := by
      unfold place_bid; rw [hget]
    rw [this]
  | some a =>
    by_cases hle : amt ≤ a.current_bid
    · have : (place_bid db now tid amt uid nm).2 = db := by
        unfold place_bid; rw [hget]; simp [hle]
      rw [this]
    · rw [place_bid_snd db now tid amt uid nm a hget hle]
      have hbu := bid_update_get db now tid amt uid nm
      rw [hget, Option.map_some'] at hbu
      rw [currentBidAt_eq db tid a hget]
      by_cases hc : (a.thread_id == tid && a.status == "active") = true
      · rw [if_pos hc] at hbu
        rw [currentBidAt_eq _ tid _ hbu]
        show a.current_bid ≤ amt
        omega
      · rw [if_neg hc] at hbu
        rw [currentBidAt_eq _ tid _ hbu]

theorem complete_snd_get (db : DB) (tid : Nat) (a : Auction)
    (hget : get_auction_by_thread db tid = some a) :
    get_auction_by_thread (complete_auction db tid).2 tid
      = some (if (a.thread_id == tid && a.status == "active") = true then
          { a with status := "completed" } else a) := by
  show get_auction_by_thread
      (db.map (fun a =>
        if a.thread_id == tid && a.status == "active" then
          { a with status := "completed" }
        else a)) tid = _
  rw [complete_update_get, hget, Option.map_some']

theorem complete_bid_eq (db : DB) (tid : Nat) :
    currentBidAt (complete_auction db tid).2 tid = currentBidAt db tid := by
  cases hget : get_auction_by_thread db tid with
  | none =>
    have h2 : get_auction_by_thread (complete_auction db tid).2 tid = none := by
      show get_auction_by_thread (db.map _) tid = none
      rw [complete_update_get, hget]; rfl
    rw [currentBidAt_none _ _ h2, currentBidAt_none _ _ hget]
  | some a =>
    rw [currentBidAt_eq db tid a hget,
        currentBidAt_eq _ tid _ (complete_snd_get db tid a hget)]
    by_cases hc : (a.thread_id == tid && a.status == "active") = true <;> simp [hc]

theorem bid_command_mono (db : DB) (balances : Nat → Option Int)
    (chan : Option Nat) (now tid uid : Nat) (nm : String) (amount : Nat) :
    currentBidAt db tid ≤ currentBidAt (bid_command db balances chan now tid uid nm amount).2 tid := by
  unfold bid_command
  cases hget : get_auction_by_thread db tid with
  | none => simp
  | some a =>
    by_cases h1 : a.status == "completed"
    · simp [h1]
    · by_cases h2 : chan_mismatch chan a
      · simp [h1, h2]
      · by_cases h3 : amount ≤ a.current_bid
        · simp [h1, h2, h3]
        · by_cases h4 : a.current_bidder_id == some uid
          · simp [h1, h2, h3, h4]
          · cases hbal : balances uid with
            | none => simp [h1, h2, h3, h4]
            | some balance =>
              by_cases h5 : (amount : Int) > balance - (get_committed_pom_for_user db uid : Int)
              · simp [h1, h2, h3, h4, h5]
              · have hm := place_bid_mono db now tid amount uid nm
                rcases hpb : place_bid db now tid amount uid nm with ⟨o, db2⟩
                rw [hpb] at hm
                cases o <;> simp [h1, h2, h3, h4, h5] <;> exact hm

/-! ## Claim theorems -/

/-- C9: for every thread_id at most one auction row ever exists: a create or
register targeting a thread_id that already has a row returns `None` without
mutating the ledger (the first call's row is untouched), and both operations
preserve the primary-key uniqueness invariant. -/
theorem c9_unique_thread_row :
    (∀ (db : DB) (now tid cid gid : Nat) (pn : String) (cb bid0 : Nat)
       (bnm : String) (a : Auction),
       get_auction_by_thread db tid = some a →
       create_auction db now tid cid gid pn cb bid0 bnm = (none, db))
  ∧ (∀ (db : DB) (tid cid gid : Nat) (pn : String) (cb : Nat)
       (obid : Option Nat) (bnm : String) (ca lba : Nat) (a : Auction),
       get_auction_by_thread db tid = some a →
       register_existing_auction db tid cid gid pn cb obid bnm ca lba = (none, db))
  ∧ (∀ (db : DB) (now tid cid gid : Nat) (pn : String) (cb bid0 : Nat)
       (bnm : String), DBwf db →
       DBwf (create_auction db now tid cid gid pn cb bid0 bnm).2)
  ∧ (∀ (db : DB) (tid cid gid : Nat) (pn : String) (cb : Nat)
       (obid : Option Nat) (bnm : String) (ca lba : Nat), DBwf db →
       DBwf (register_existing_auction db tid cid gid pn cb obid bnm ca lba).2) := by
  refine ⟨?_, ?_, ?_, ?_⟩
  · intro db now tid cid gid pn cb bid0 bnm a hget
    unfold create_auction
    rw [hget]
  · intro db tid cid gid pn cb obid bnm ca lba a hget
    unfold register_existing_auction
    rw [hget]
  · intro db now tid cid gid pn cb bid0 bnm hwf
    unfold create_auction
    cases hget : get_auction_by_thread db tid with
    | some a => exact hwf
    | none =>
      have hno := get_none db tid hget
      simp only [DBwf, List.map_append, List.map_cons, List.map_nil]
      rw [List.nodup_append]
      refine ⟨hwf, List.nodup_singleton _, ?_⟩
      intro x hx1 hx2
      obtain ⟨b, hb, rfl⟩ := List.mem_map.mp hx1
      have : b.thread_id = tid := by simpa using hx2
      exact hno b hb this
  · intro db tid cid gid pn cb obid bnm ca lba hwf
    unfold register_existing_auction
    cases hget : get_auction_by_thread db tid with
    | some a => exact hwf
    | none =>
      have hno := get_none db tid hget
      simp only [DBwf, List.map_append, List.map_cons, List.map_nil]
      rw [List.nodup_append]
      refine ⟨hwf, List.nodup_singleton _, ?_⟩
      intro x hx1 hx2
      obtain ⟨b, hb, rfl⟩ := List.mem_map.mp hx1
      have : b.thread_id = tid := by simpa using hx2
      exact hno b hb this

/-- C9 witness: a concrete duplicate create and register are rejected with
no mutation. -/
theorem c9_witness :
    create_auction [mkRow 1 5 100 (some 8) 0 "active"] 50 1 5 1 "P" 200 9 "B"
      = (none, [mkRow 1 5 100 (some 8) 0 "active"])
    ∧ register_existing_auction [mkRow 1 5 100 (some 8) 0 "active"] 1 5 1 "P" 200 (some 9) "B" 0 0
      = (none, [mkRow 1 5 100 (some 8) 0 "active"]) :=
  ⟨c9_unique_thread_row.1 [mkRow 1 5 100 (some 8) 0 "active"] 50 1 5 1 "P" 200 9 "B"
      (mkRow 1 5 100 (some 8) 0 "active") rfl,
   c9_unique_thread_row.2.1 [mkRow 1 5 100 (some 8) 0 "active"] 1 5 1 "P" 200 (some 9) "B" 0 0
      (mkRow 1 5 100 (some 8) 0 "active") rfl⟩

/-- C6: a `/bid` whose bidder is already the auction's current bidder always
fails — whatever the amount — and leaves the ledger unchanged (the
self-outbid guard of `bid_command`, combined with the earlier checks, rejects
before any write). -/
theorem c6_self_outbid (db : DB) (balances : Nat → Option Int)
    (chan : Option Nat) (now tid uid : Nat) (nm : String) (amount : Nat)
    (a : Auction) (hget : get_auction_by_thread db tid = some a)
    (hself : a.current_bidder_id = some uid) :
    isSuccess (bid_command db balances chan now tid uid nm amount).1 = false
    ∧ (bid_command db balances chan now tid uid nm amount).2 = db := by
  unfold bid_command
  rw [hget]
  by_cases h1 : (a.status == "completed") = true
  · simp [h1, isSuccess]
  · by_cases h2 : chan_mismatch chan a = true
    · simp [h1, h2, isSuccess]
    · by_cases h3 : amount ≤ a.current_bid
      · simp [h1, h2, h3, isSuccess]
      · simp [h1, h2, h3, hself, isSuccess]

/-- C6 witness: a concrete self-outbid with a huge amount is rejected and
the row is unchanged. -/
theorem c6_witness :
    isSuccess (bid_command [mkRow 1 5 100 (some 8) 0 "active"]
        (fun _ => some 1000000) none 10 1 8 "A" 999999).1 = false
    ∧ (bid_command [mkRow 1 5 100 (some 8) 0 "active"]
        (fun _ => some 1000000) none 10 1 8 "A" 999999).2
      = [mkRow 1 5 100 (some 8) 0 "active"] :=
  c6_self_outbid [mkRow 1 5 100 (some 8) 0 "active"] (fun _ => some 1000000)
    none 10 1 8 "A" 999999 (mkRow 1 5 100 (some 8) 0 "active") rfl rfl

/-- C4 evaluation: `place_bid` on a `completed` auction with an amount above
the stored bid returns the (unchanged) row, not `None` — contradicting both
the claim and `place_bid`'s own docstring, which promise `None` when the
auction is not active.  The row itself is indeed not mutated. -/
theorem c4_place_bid_completed_eval :
    place_bid [mkRow 1 5 100 (some 8) 0 "completed"] 500 1 150 2 "B"
      = (some (mkRow 1 5 100 (some 8) 0 "completed"),
         [mkRow 1 5 100 (some 8) 0 "completed"]) := rfl

/-- C2 counterexample: completing an already-completed auction returns the
row again (`isSome`), not the claimed null/no-op signal; the state is
unchanged. -/
theorem c2_counterexample :
    ((complete_auction (complete_auction [mkRow 1 5 100 (some 8) 0 "active"] 1).2 1).1).isSome = true
    ∧ (complete_auction (complete_auction [mkRow 1 5 100 (some 8) 0 "active"] 1).2 1).2
        = (complete_auction [mkRow 1 5 100 (some 8) 0 "active"] 1).2 :=
  ⟨rfl, rfl⟩

/-- C2 amended: the first `complete_auction` on an active auction flips the
status to completed and returns the row; a second call is a state-level
no-op that returns the already-completed row again (the null return happens
only when no row exists), and the completed thread disappears from the
active-auctions listing the completion sweep scans, which is what prevents a
later sweep from settling it again. -/
theorem c2_complete_idempotent :
    (∀ (db : DB) (tid : Nat) (a : Auction), DBwf db →
       get_auction_by_thread db tid = some a → a.status = "active" →
       (complete_auction db tid).1 = some { a with status := "completed" }
       ∧ complete_auction (complete_auction db tid).2 tid
           = ((complete_auction db tid).1, (complete_auction db tid).2)
       ∧ ∀ b ∈ get_active_auctions_for_reminders (complete_auction db tid).2,
           b.thread_id ≠ tid)
  ∧ (∀ (db : DB) (tid : Nat),
       get_auction_by_thread db tid = none → complete_auction db tid = (none, db)) := by
  constructor
  · intro db tid a hwf hget hact
    have htid : a.thread_id = tid := (get_mem db tid a hget).2
    have hcond : (a.thread_id == tid && a.status == "active") = true := by
      simp [htid, hact]
    refine ⟨?_, ?_, ?_⟩
    · show get_auction_by_thread (db.map _) tid = _
      rw [complete_update_get, hget, Option.map_some', if_pos hcond]
    · -- second call: the conditional update is pointwise idempotent
      have hff : ∀ x : Auction,
          (fun y : Auction =>
            if y.thread_id == tid && y.status == "active" then
              { y with status := "completed" }
            else y)
          ((fun y : Auction =>
            if y.thread_id == tid && y.status == "active" then
              { y with status := "completed" }
            else y) x)
          = (fun y : Auction =>
            if y.thread_id == tid && y.status == "active" then
              { y with status := "completed" }
            else y) x := by
        intro x
        by_cases hx : (x.thread_id == tid && x.status == "active") = true
        · simp [hx]
        · simp [hx]
      have hmap :
          ((complete_auction db tid).2).map
            (fun y : Auction =>
              if y.thread_id == tid && y.status == "active" then
                { y with status := "completed" }
              else y)
          = (complete_auction db tid).2 := by
        show (db.map _).map _ = db.map _
        rw [List.map_map]
        exact List.map_congr_left (fun x _ => hff x)
      show (get_auction_by_thread (((complete_auction db tid).2).map _) tid,
            ((complete_auction db tid).2).map _) = _
      rw [hmap]
      rfl
    · intro b hb hbtid
      have hb2 : b ∈ (complete_auction db tid).2 ∧ (b.status == "active") = true :=
        List.mem_filter.mp hb
      obtain ⟨c, hc, hcb⟩ := List.mem_map.mp hb2.1
      have hctid : c.thread_id = tid := by
        rw [← hbtid, ← hcb]
        by_cases hcc : (c.thread_id == tid && c.status == "active") = true <;> simp [hcc]
      have hca : c = a := get_unique_wf db hwf tid a hget c hc hctid
      subst hca
      rw [if_pos hcond] at hcb
      rw [← hcb] at hb2
      simp at hb2
  · intro db tid hget
    have hagree : ∀ x ∈ db,
        (fun y : Auction =>
          if y.thread_id == tid && y.status == "active" then
            { y with status := "completed" }
          else y) x = x := by
      intro x hx
      have := get_none db tid hget x hx
      simp [this]
    show (get_auction_by_thread (db.map _) tid, db.map _) = (none, db)
    rw [map_eq_self_of_agree _ db hagree, hget]

/-- C2 witness: the amended statement at a concrete active auction. -/
theorem c2_witness :
    (complete_auction [mkRow 1 5 100 (some 8) 0 "active"] 1).1
      = some { mkRow 1 5 100 (some 8) 0 "active" with status := "completed" } :=
  (c2_complete_idempotent.1 [mkRow 1 5 100 (some 8) 0 "active"] 1
    (mkRow 1 5 100 (some 8) 0 "active") (by decide) rfl rfl).1

/-- C1 counterexample: with every external call succeeding except the
history append (which raises a transient error), the debit step is never
attempted — `bot.py` wraps the append and the debit in the same try-block —
although the auction does remain completed.  This refutes the claimed
independent fault boundary between the append step and the debit step. -/
theorem c1_counterexample :
    (check_expired_auction [mkRow 1 5 300 (some 7) 0 "active"]
        settleEnvAppendFails 100000 (mkRow 1 5 300 (some 7) 0 "active")).2.appendAttempted = true
    ∧ (check_expired_auction [mkRow 1 5 300 (some 7) 0 "active"]
        settleEnvAppendFails 100000 (mkRow 1 5 300 (some 7) 0 "active")).2.debitAttempted = false
    ∧ statusAt (check_expired_auction [mkRow 1 5 300 (some 7) 0 "active"]
        settleEnvAppendFails 100000 (mkRow 1 5 300 (some 7) 0 "active")).1 1
      = some "completed" :=
  ⟨rfl, rfl, rfl⟩

/-- C1 amended: settlement of an expired auction keeps the auction completed
whatever the external failures, and the thread announcement, thread lock and
channel announcement each fail in isolation (they never block the Sheets
step); but the history append and the winner debit share one fault boundary:
if the thread and channel fetches succeed, the debit is attempted exactly
when the append succeeded and a winner id is present, and an append failure
is surfaced as an operator warning; the pinned-list refresh is attempted in
its own boundary regardless. -/
theorem c1_settlement_boundaries (env : SettleEnv) (db : DB) (now : Nat)
    (a : Auction) (hwf : DBwf db) (hmem : a ∈ db) (hact : a.status = "active")
    (hexp : seconds_until_expiry a.last_bid_at now = 0) :
    statusAt (check_expired_auction db env now a).1 a.thread_id = some "completed"
    ∧ (env.threadFetchOk = true → env.channelFetchOk = true →
        (check_expired_auction db env now a).2.debitAttempted
            = (env.appendOk && a.current_bidder_id.isSome)
        ∧ (env.appendOk = false →
            (check_expired_auction db env now a).2.operatorWarned = true)
        ∧ (check_expired_auction db env now a).2.pinRefreshAttempted = true) := by
  have hget : get_auction_by_thread db a.thread_id = some a := get_mem_wf db hwf a hmem
  have hcond : (a.thread_id == a.thread_id && a.status == "active") = true := by
    simp [hact]
  have hc1 : (complete_auction db a.thread_id).1 = some { a with status := "completed" } := by
    show get_auction_by_thread (db.map _) a.thread_id = _
    rw [complete_update_get, hget, Option.map_some', if_pos hcond]
  have hstep : check_expired_auction db env now a
      = ((complete_auction db a.thread_id).2, run_settlement env a.current_bidder_id) := by
    unfold check_expired_auction
    rw [if_pos hexp]
    rcases hca : complete_auction db a.thread_id with ⟨o, db2⟩
    rw [hca] at hc1
    simp only at hc1
    rw [hc1]
  rw [hstep]
  constructor
  · show statusAt (complete_auction db a.thread_id).2 a.thread_id = some "completed"
    unfold statusAt
    rw [complete_snd_get db a.thread_id a hget, if_pos hcond, Option.map_some']
  · intro h1 h2
    unfold run_settlement
    rw [h1, h2]
    simp only [Bool.not_true, Bool.false_eq_true, if_false]
    cases happ : env.appendOk with
    | false => simp
    | true =>
      cases hbid : a.current_bidder_id with
      | none => simp
      | some w =>
        cases hdr : env.deductRaises with
        | true => simp
        | false =>
          cases hdo : env.deductOk with
          | true => simp
          | false => simp

/-- C1 witness for the amended statement: all-success settlement of a
concrete expired auction attempts (and applies) the debit and keeps the
auction completed. -/
theorem c1_witness :
    statusAt (check_expired_auction [mkRow 3 5 300 (some 7) 0 "active"]
        settleEnvAllOk 100000 (mkRow 3 5 300 (some 7) 0 "active")).1 3
      = some "completed"
    ∧ (check_expired_auction [mkRow 3 5 300 (some 7) 0 "active"]
        settleEnvAllOk 100000 (mkRow 3 5 300 (some 7) 0 "active")).2.debitAttempted
      = true := by
  have h := c1_settlement_boundaries settleEnvAllOk
    [mkRow 3 5 300 (some 7) 0 "active"] 100000 (mkRow 3 5 300 (some 7) 0 "active")
    (by decide) (by decide) rfl (by decide)
  exact ⟨h.1, by have h2 := (h.2 rfl rfl).1; simpa using h2⟩

/-- C3 counterexample: two bids read the same snapshot (current bid 100);
the first commits 150, then the second's UPDATE still applies — its WHERE
clause re-checks only `status = 'active'`, not the amount — and overwrites
the higher bid with 120, so `current_bid` decreases under interleaving. -/
theorem c3_counterexample :
    currentBidAt (bid_update [mkRow 1 5 100 (some 8) 0 "active"] 50 1 150 2 "B") 1 = 150
    ∧ interleaved_two_bids [mkRow 1 5 100 (some 8) 0 "active"] 1 50 150 2 "B" 60 120 3 "C"
        = bid_update (bid_update [mkRow 1 5 100 (some 8) 0 "active"] 50 1 150 2 "B") 60 1 120 3 "C"
    ∧ currentBidAt (interleaved_two_bids [mkRow 1 5 100 (some 8) 0 "active"] 1 50 150 2 "B" 60 120 3 "C") 1 = 120 :=
  ⟨rfl, rfl, rfl⟩

/-- C3 amended: the write of `place_bid` re-validates only the
`status = 'active'` condition at write time (a non-active row is never
touched by the UPDATE), while the amount-exceeds-current-bid check is
performed only at read time; consequently an interleaved lower bid can
overwrite a concurrently committed higher bid, and `current_bid` is
guaranteed not to decrease only under sequential (non-interleaved)
`place_bid` calls. -/
theorem c3_write_time_guard :
    (∀ (db : DB) (now tid amt uid : Nat) (nm : String) (a : Auction),
       a ∈ db → a.status ≠ "active" → a ∈ bid_update db now tid amt uid nm)
  ∧ (∀ (db : DB) (now tid amt uid : Nat) (nm : String),
       currentBidAt db tid ≤ currentBidAt (place_bid db now tid amt uid nm).2 tid) := by
  constructor
  · intro db now tid amt uid nm a ha hna
    have hfa : (fun x : Auction =>
        if x.thread_id == tid && x.status == "active" then
          { x with current_bid := amt, current_bidder_id := some uid
                   current_bidder_name := some nm, last_bid_at := now }
        else x) a = a := by
      simp [hna]
    have := List.mem_map_of_mem (fun x : Auction =>
        if x.thread_id == tid && x.status == "active" then
          { x with current_bid := amt, current_bidder_id := some uid
                   current_bidder_name := some nm, last_bid_at := now }
        else x) ha
    rw [hfa] at this
    exact this
  · exact place_bid_mono

/-- C3 witness for the amended statement: a concrete completed row survives
the UPDATE untouched, and a sequential rebid does not decrease a concrete
current bid. -/
theorem c3_witness :
    mkRow 1 5 100 (some 8) 0 "completed"
      ∈ bid_update [mkRow 1 5 100 (some 8) 0 "completed"] 50 1 150 2 "B"
    ∧ currentBidAt [mkRow 1 5 100 (some 8) 0 "active"] 1
        ≤ currentBidAt (place_bid [mkRow 1 5 100 (some 8) 0 "active"] 50 1 150 2 "B").2 1 :=
  ⟨c3_write_time_guard.1 [mkRow 1 5 100 (some 8) 0 "completed"] 50 1 150 2 "B"
      (mkRow 1 5 100 (some 8) 0 "completed") (by decide) (by decide),
   c3_write_time_guard.2 [mkRow 1 5 100 (some 8) 0 "active"] 50 1 150 2 "B"⟩

theorem committed_excluding_eq (db : DB) (uid tid : Nat)
    (h : ∀ b ∈ db, b.thread_id = tid →
         (b.status == "active" && b.current_bidder_id == some uid) = false) :
    get_committed_pom_for_user db uid = committed_pom_excluding db uid tid := by
  induction db with
  | nil => rfl
  | cons b rest ih =>
    have hrest : ∀ x ∈ rest, x.thread_id = tid →
        (x.status == "active" && x.current_bidder_id == some uid) = false :=
      fun x hx => h x (List.mem_cons_of_mem _ hx)
    unfold get_committed_pom_for_user committed_pom_excluding
    rw [ih hrest]
    congr 1
    by_cases hb : b.thread_id = tid
    · have hz := h b (List.mem_cons_self b rest) hb
      rw [if_neg (by simp [hz]), if_neg (by simp [hz])]
    · have hz : (b.thread_id != tid) = true := by simp [hb]
      rw [hz, Bool.and_true]

/-- C5: a bid is accepted by `bid_command` only if
`amount ≤ balance − committed`, where the balance is the oracle value used
at decision time and `committed` equals the sum of current bids over the
active auctions the bidder leads excluding the auction being bid on (the
self-outbid guard ensures the bidder does not lead it); and, concretely, a
user with balance 500 who already leads one auction at 500 is rejected
over-budget, with no mutation, when trying to lead a second auction at
100. -/
theorem c5_budget_gate :
    (∀ (db : DB) (balances : Nat → Option Int) (chan : Option Nat)
       (now tid uid : Nat) (nm : String) (amount : Nat) (balance : Int)
       (a2 : Auction), DBwf db → balances uid = some balance →
       (bid_command db balances chan now tid uid nm amount).1 = BidOutcome.success a2 →
       (amount : Int) ≤ balance - (committed_pom_excluding db uid tid : Int))
  ∧ bid_command
      [mkRow 1 5 500 (some 8) 0 "active", mkRow 2 5 50 (some 9) 0 "active"]
      (fun u => if u == 8 then some 500 else some 1000) none 100 2 8 "A" 100
      = (BidOutcome.overBudget,
         [mkRow 1 5 500 (some 8) 0 "active", mkRow 2 5 50 (some 9) 0 "active"]) := by
  constructor
  · intro db balances chan now tid uid nm amount balance a2 hwf hbal hsucc
    unfold bid_command at hsucc
    cases hget : get_auction_by_thread db tid with
    | none => rw [hget] at hsucc; simp at hsucc
    | some auction =>
      rw [hget] at hsucc
      by_cases h1 : (auction.status == "completed") = true
      · simp [h1] at hsucc
      · by_cases h2 : chan_mismatch chan auction = true
        · simp [h1, h2] at hsucc
        · by_cases h3 : amount ≤ auction.current_bid
          · simp [h1, h2, h3] at hsucc
          · by_cases h4 : (auction.current_bidder_id == some uid) = true
            · simp [h1, h2, h3, h4] at hsucc
            · rw [hbal] at hsucc
              by_cases h5 : (amount : Int) > balance - (get_committed_pom_for_user db uid : Int)
              · simp [h1, h2, h3, h4, h5] at hsucc
              · have hle : (amount : Int) ≤ balance - (get_committed_pom_for_user db uid : Int) := by
                  omega
                have heq : get_committed_pom_for_user db uid
                    = committed_pom_excluding db uid tid := by
                  apply committed_excluding_eq
                  intro b hb hbtid
                  have hba : b = auction := get_unique_wf db hwf tid auction hget b hb hbtid
                  subst hba
                  simp only [Bool.and_eq_false_iff]
                  right
                  simpa using h4
                rw [heq] at hle
                exact hle
  · rfl

/-- C5 witness: a concrete accepted bid satisfies the budget bound. -/
theorem c5_witness :
    (100 : Int) ≤ 1000 - (committed_pom_excluding [mkRow 2 5 50 (some 9) 0 "active"] 8 2 : Int) :=
  c5_budget_gate.1 [mkRow 2 5 50 (some 9) 0 "active"] (fun _ => some 1000) none
    77 2 8 "B" 100 1000
    { mkRow 2 5 50 (some 9) 0 "active" with
        current_bid := 100, current_bidder_id := some 8
        current_bidder_name := some "B", last_bid_at := 77 }
    (by decide) rfl rfl

theorem apply_op_mono (balances : Nat → Option Int) (chan : Option Nat)
    (tid : Nat) (db : DB) (op : AuctionOp) :
    currentBidAt db tid ≤ currentBidAt (apply_op balances chan tid db op) tid := by
  cases op with
  | bid now uid nm amount => exact bid_command_mono db balances chan now tid uid nm amount
  | complete => exact le_of_eq (complete_bid_eq db tid).symm

/-- C7: across every sequence of operations on one auction thread the stored
current bid never decreases; an accepted bid (a `success` outcome of the
state machine, in a ledger whose statuses are the two legal ones) sets
`current_bid` to its strictly larger amount and `current_bidder` to its
bidder; and completing an auction changes no field other than `status`. -/
theorem c7_monotone_bids :
    (∀ (balances : Nat → Option Int) (chan : Option Nat) (tid : Nat)
       (db : DB) (ops : List AuctionOp),
       currentBidAt db tid ≤ currentBidAt (run_ops balances chan tid db ops) tid)
  ∧ (∀ (db : DB) (balances : Nat → Option Int) (chan : Option Nat)
       (now tid uid : Nat) (nm : String) (amount : Nat) (a2 : Auction),
       (∀ b ∈ db, b.status = "active" ∨ b.status = "completed") →
       (bid_command db balances chan now tid uid nm amount).1 = BidOutcome.success a2 →
       currentBidAt (bid_command db balances chan now tid uid nm amount).2 tid = amount
       ∧ currentBidAt db tid < amount
       ∧ bidderAt (bid_command db balances chan now tid uid nm amount).2 tid = some uid)
  ∧ (∀ (db : DB) (tid : Nat),
       ((complete_auction db tid).2).map stripStatus = db.map stripStatus) := by
  refine ⟨?_, ?_, ?_⟩
  · intro balances chan tid db ops
    induction ops generalizing db with
    | nil => exact le_refl _
    | cons op rest ih =>
      have hstep : run_ops balances chan tid db (op :: rest)
          = run_ops balances chan tid (apply_op balances chan tid db op) rest := rfl
      rw [hstep]
      exact le_trans (apply_op_mono balances chan tid db op)
        (ih (apply_op balances chan tid db op))
  · intro db balances chan now tid uid nm amount a2 hstatusOk hsucc
    unfold bid_command at hsucc
    cases hget : get_auction_by_thread db tid with
    | none => rw [hget] at hsucc; simp at hsucc
    | some auction =>
      rw [hget] at hsucc
      by_cases h1 : (auction.status == "completed") = true
      · simp [h1] at hsucc
      · by_cases h2 : chan_mismatch chan auction = true
        · simp [h1, h2] at hsucc
        · by_cases h3 : amount ≤ auction.current_bid
          · simp [h1, h2, h3] at hsucc
          · by_cases h4 : (auction.current_bidder_id == some uid) = true
            · simp [h1, h2, h3, h4] at hsucc
            · cases hbal : balances uid with
              | none => rw [hbal] at hsucc; simp [h1, h2, h3, h4] at hsucc
              | some balance =>
                rw [hbal] at hsucc
                by_cases h5 : (amount : Int) > balance - (get_committed_pom_for_user db uid : Int)
                · simp [h1, h2, h3, h4, h5] at hsucc
                · have hmem := (get_mem db tid auction hget).1
                  have htid := (get_mem db tid auction hget).2
                  have hact : auction.status = "active" := by
                    rcases hstatusOk auction hmem with h | h
                    · exact h
                    · exact absurd (by simp [h]) h1
                  have hcond : (auction.thread_id == tid && auction.status == "active") = true := by
                    simp [htid, hact]
                  have hupd : get_auction_by_thread (bid_update db now tid amount uid nm) tid
                      = some { auction with
                          current_bid := amount, current_bidder_id := some uid
                          current_bidder_name := some nm, last_bid_at := now } := by
                    rw [bid_update_get, hget, Option.map_some', if_pos hcond]
                  have hpb : place_bid db now tid amount uid nm
                      = (some { auction with
                            current_bid := amount, current_bidder_id := some uid
                            current_bidder_name := some nm, last_bid_at := now },
                         bid_update db now tid amount uid nm) := by
                    unfold place_bid
                    simp only [hget]
                    rw [if_neg h3, hupd]
                  have hcmd : bid_command db balances chan now tid uid nm amount
                      = (BidOutcome.success { auction with
                            current_bid := amount, current_bidder_id := some uid
                            current_bidder_name := some nm, last_bid_at := now },
                         bid_update db now tid amount uid nm) := by
                    unfold bid_command
                    simp only [hget, hbal]
                    rw [if_neg h1, if_neg h2, if_neg h3, if_neg h4, if_neg h5]
                    simp only [hpb]
                  refine ⟨?_, ?_, ?_⟩
                  · rw [hcmd]
                    exact currentBidAt_eq _ tid _ hupd
                  · rw [currentBidAt_eq db tid auction hget]
                    omega
                  · rw [hcmd]
                    exact bidderAt_eq _ tid _ hupd
  · intro db tid
    show (db.map _).map stripStatus = db.map stripStatus
    rw [List.map_map]
    apply List.map_congr_left
    intro x _
    by_cases hx : (x.thread_id == tid && x.status == "active") = true
    · simp only [Function.comp_apply, if_pos hx]
      rfl
    · simp only [Function.comp_apply, if_neg hx]

/-- C7 witness: a concrete accepted bid on an active single-row ledger sets
the bid to 150 (strictly above 100) and the bidder to the caller. -/
theorem c7_witness :
    currentBidAt (bid_command [mkRow 1 5 100 (some 8) 0 "active"]
        (fun _ => some 1000) none 77 1 2 "B" 150).2 1 = 150
    ∧ currentBidAt [mkRow 1 5 100 (some 8) 0 "active"] 1 < 150
    ∧ bidderAt (bid_command [mkRow 1 5 100 (some 8) 0 "active"]
        (fun _ => some 1000) none 77 1 2 "B" 150).2 1 = some 2 :=
  c7_monotone_bids.2.1 [mkRow 1 5 100 (some 8) 0 "active"] (fun _ => some 1000)
    none 77 1 2 "B" 150
    { mkRow 1 5 100 (some 8) 0 "active" with
        current_bid := 150, current_bidder_id := some 2
        current_bidder_name := some "B", last_bid_at := 77 }
    (by decide) rfl

theorem thresholds_nodup : REMINDER_THRESHOLDS.Nodup := by decide

theorem count_cons (h th s : Nat) (out : List (Nat × Nat)) :
    count_threshold h ((th, s) :: out)
      = (if th = h then 1 else 0) + count_threshold h out := by
  unfold count_threshold
  rw [List.filter_cons]
  by_cases hh : th = h
  · simp [hh, Nat.add_comm]
  · simp [hh]

theorem count_append (h : Nat) (o1 o2 : List (Nat × Nat)) :
    count_threshold h (o1 ++ o2) = count_threshold h o1 + count_threshold h o2 := by
  unfold count_threshold
  rw [List.filter_append, List.length_append]

theorem st_all_fail (L : List Nat) (sent : List Nat) (s : Nat) :
    sweep_thresholds L sent s (fun _ => false) = (sent, []) := by
  induction L generalizing sent with
  | nil => rfl
  | cons th rest ih =>
    unfold sweep_thresholds
    by_cases hth : th ∈ sent
    · simpa [hth] using ih sent
    · by_cases hw : in_reminder_window th s = true
      · simpa [hth, hw] using ih sent
      · simpa [hth, hw] using ih sent

theorem st_sent_mem (L sent : List Nat) (s : Nat) (ok : Nat → Bool) (h : Nat) :
    h ∈ (sweep_thresholds L sent s ok).1 ↔
      h ∈ sent ∨ (h ∈ L ∧ h ∉ sent ∧ in_reminder_window h s = true ∧ ok h = true) := by
  induction L generalizing sent with
  | nil => simp [sweep_thresholds]
  | cons th rest ih =>
    unfold sweep_thresholds
    by_cases hth : th ∈ sent
    · rw [if_pos hth, ih sent]
      constructor
      · rintro (hs | ⟨hr, hns, hw, hok⟩)
        · exact Or.inl hs
        · exact Or.inr ⟨List.mem_cons_of_mem _ hr, hns, hw, hok⟩
      · rintro (hs | ⟨hr, hns, hw, hok⟩)
        · exact Or.inl hs
        · rcases List.mem_cons.mp hr with rfl | hr2
          · exact Or.inl hth
          · exact Or.inr ⟨hr2, hns, hw, hok⟩
    · rw [if_neg hth]
      by_cases hw : in_reminder_window th s = true
      · by_cases hok : ok th = true
        · rw [if_pos hw, if_pos hok]
          show h ∈ (sweep_thresholds rest (sent ++ [th]) s ok).1 ↔ _
          rw [ih (sent ++ [th])]
          constructor
          · rintro (hs | ⟨hr, hns, hw2, hok2⟩)
            · rcases List.mem_append.mp hs with h1 | h1
              · exact Or.inl h1
              · have hhth : h = th := by simpa using h1
                subst hhth
                exact Or.inr ⟨List.mem_cons_self _ _, hth, hw, hok⟩
            · have hns2 : h ∉ sent := fun c => hns (List.mem_append_left _ c)
              exact Or.inr ⟨List.mem_cons_of_mem _ hr, hns2, hw2, hok2⟩
          · rintro (hs | ⟨hr, hns, hw2, hok2⟩)
            · exact Or.inl (List.mem_append_left _ hs)
            · rcases List.mem_cons.mp hr with rfl | hr2
              · exact Or.inl (List.mem_append_right _ (by simp))
              · by_cases hh : h = th
                · subst hh
                  exact Or.inl (List.mem_append_right _ (by simp))
                · refine Or.inr ⟨hr2, ?_, hw2, hok2⟩
                  intro c
                  rcases List.mem_append.mp c with c1 | c1
                  · exact hns c1
                  · exact hh (by simpa using c1)
        · rw [if_pos hw, if_neg hok, ih sent]
          constructor
          · rintro (hs | ⟨hr, hns, hw2, hok2⟩)
            · exact Or.inl hs
            · exact Or.inr ⟨List.mem_cons_of_mem _ hr, hns, hw2, hok2⟩
          · rintro (hs | ⟨hr, hns, hw2, hok2⟩)
            · exact Or.inl hs
            · rcases List.mem_cons.mp hr with rfl | hr2
              · exact absurd hok2 hok
              · exact Or.inr ⟨hr2, hns, hw2, hok2⟩
      · rw [if_neg hw, ih sent]
        constructor
        · rintro (hs | ⟨hr, hns, hw2, hok2⟩)
          · exact Or.inl hs
          · exact Or.inr ⟨List.mem_cons_of_mem _ hr, hns, hw2, hok2⟩
        · rintro (hs | ⟨hr, hns, hw2, hok2⟩)
          · exact Or.inl hs
          · rcases List.mem_cons.mp hr with rfl | hr2
            · exact absurd hw2 hw
            · exact Or.inr ⟨hr2, hns, hw2, hok2⟩

theorem st_count (L : List Nat) (hnd : L.Nodup) (sent : List Nat) (s : Nat)
    (ok : Nat → Bool) (h : Nat) :
    count_threshold h (sweep_thresholds L sent s ok).2 =
      if h ∈ L ∧ h ∉ sent ∧ in_reminder_window h s = true ∧ ok h = true
      then 1 else 0 := by
  induction L generalizing sent with
  | nil => simp [sweep_thresholds, count_threshold]
  | cons th rest ih =>
    have hnd2 := List.nodup_cons.mp hnd
    unfold sweep_thresholds
    by_cases hth : th ∈ sent
    · rw [if_pos hth, ih hnd2.2 sent]
      by_cases hh : h = th
      · rw [hh]
        simp [hnd2.1, hth]
      · simp [List.mem_cons, hh]
    · rw [if_neg hth]
      by_cases hw : in_reminder_window th s = true
      · by_cases hok : ok th = true
        · rw [if_pos hw, if_pos hok]
          show count_threshold h ((th, s) :: (sweep_thresholds rest (sent ++ [th]) s ok).2) = _
          rw [count_cons, ih hnd2.2 (sent ++ [th])]
          by_cases hh : th = h
          · rw [if_pos hh]
            have hhr : h ∉ rest := by rw [← hh]; exact hnd2.1
            have hhs : h ∉ sent := by rw [← hh]; exact hth
            have hhw : in_reminder_window h s = true := by rw [← hh]; exact hw
            have hhok : ok h = true := by rw [← hh]; exact hok
            rw [if_neg (fun hc => hhr hc.1),
                if_pos ⟨by rw [← hh]; exact List.mem_cons_self th rest, hhs, hhw, hhok⟩]
          · rw [if_neg hh]
            have hh2 : ¬ h = th := fun c => hh c.symm
            have e1 : (h ∈ sent ++ [th]) ↔ h ∈ sent := by
              simp [List.mem_append, hh2]
            simp [List.mem_cons, e1, hh2]
        · rw [if_pos hw, if_neg hok, ih hnd2.2 sent]
          by_cases hh : h = th
          · rw [hh]
            simp [hnd2.1, hok]
          · simp [List.mem_cons, hh]
      · rw [if_neg hw, ih hnd2.2 sent]
        by_cases hh : h = th
        · rw [hh]
          simp [hnd2.1, hw]
        · simp [List.mem_cons, hh]

theorem run_count (h : Nat) (hmem : h ∈ REMINDER_THRESHOLDS)
    (obs : List (Nat × (Nat → Bool))) (sent : List Nat) :
    count_threshold h (sweep_run sent obs).2 =
      if h ∉ sent ∧ ∃ p ∈ obs, in_reminder_window h p.1 = true ∧ p.2 h = true
      then 1 else 0 := by
  induction obs generalizing sent with
  | nil => simp [sweep_run, count_threshold]
  | cons p rest ih =>
    rcases p with ⟨s, ok⟩
    show count_threshold h ((sweep_thresholds REMINDER_THRESHOLDS sent s ok).2
        ++ (sweep_run (sweep_thresholds REMINDER_THRESHOLDS sent s ok).1 rest).2) = _
    rw [count_append, st_count REMINDER_THRESHOLDS thresholds_nodup sent s ok h,
        ih (sweep_thresholds REMINDER_THRESHOLDS sent s ok).1]
    have hkey := st_sent_mem REMINDER_THRESHOLDS sent s ok h
    by_cases hA : h ∈ sent
    · rw [if_neg (fun hc => hc.2.1 hA),
          if_neg (fun hc => hc.1 (hkey.mpr (Or.inl hA))),
          if_neg (fun hc => hc.1 hA)]
    · by_cases hB : in_reminder_window h s = true ∧ ok h = true
      · rw [if_pos ⟨hmem, hA, hB.1, hB.2⟩]
        have hin : h ∈ (sweep_thresholds REMINDER_THRESHOLDS sent s ok).1 :=
          hkey.mpr (Or.inr ⟨hmem, hA, hB.1, hB.2⟩)
        rw [if_neg (fun hc => hc.1 hin),
            if_pos ⟨hA, ⟨(s, ok), List.mem_cons_self _ _, hB.1, hB.2⟩⟩]
      · rw [if_neg (fun hc => hB ⟨hc.2.2.1, hc.2.2.2⟩)]
        have hnin : h ∉ (sweep_thresholds REMINDER_THRESHOLDS sent s ok).1 := by
          rw [hkey]
          rintro (hc | ⟨_, _, hw2, hok2⟩)
          · exact hA hc
          · exact hB ⟨hw2, hok2⟩
        by_cases hC : ∃ p ∈ rest, in_reminder_window h p.1 = true ∧ p.2 h = true
        · obtain ⟨q, hq, hq1, hq2⟩ := hC
          rw [if_pos ⟨hnin, ⟨q, hq, hq1, hq2⟩⟩,
              if_pos ⟨hA, ⟨q, List.mem_cons_of_mem _ hq, hq1, hq2⟩⟩]
        · rw [if_neg (fun hc => hC hc.2), if_neg ?_]
          rintro ⟨_, ⟨q, hq, hq1, hq2⟩⟩
          rcases List.mem_cons.mp hq with rfl | hq3
          · exact hB ⟨hq1, hq2⟩
          · exact hC ⟨q, hq3, hq1, hq2⟩

theorem st_out_window (L sent : List Nat) (s : Nat) (ok : Nat → Bool) :
    ∀ p ∈ (sweep_thresholds L sent s ok).2,
      p.1 ∈ L ∧ in_reminder_window p.1 p.2 = true := by
  induction L generalizing sent with
  | nil => simp [sweep_thresholds]
  | cons th rest ih =>
    intro p hp
    unfold sweep_thresholds at hp
    by_cases hth : th ∈ sent
    · rw [if_pos hth] at hp
      obtain ⟨h1, h2⟩ := ih sent p hp
      exact ⟨List.mem_cons_of_mem _ h1, h2⟩
    · rw [if_neg hth] at hp
      by_cases hw : in_reminder_window th s = true
      · by_cases hok : ok th = true
        · rw [if_pos hw, if_pos hok] at hp
          replace hp : p ∈ (th, s) :: (sweep_thresholds rest (sent ++ [th]) s ok).2 := hp
          rcases List.mem_cons.mp hp with rfl | hp2
          · exact ⟨List.mem_cons_self _ _, hw⟩
          · obtain ⟨h1, h2⟩ := ih (sent ++ [th]) p hp2
            exact ⟨List.mem_cons_of_mem _ h1, h2⟩
        · rw [if_pos hw, if_neg hok] at hp
          obtain ⟨h1, h2⟩ := ih sent p hp
          exact ⟨List.mem_cons_of_mem _ h1, h2⟩
      · rw [if_neg hw] at hp
        obtain ⟨h1, h2⟩ := ih sent p hp
        exact ⟨List.mem_cons_of_mem _ h1, h2⟩

theorem run_out_window (obs : List (Nat × (Nat → Bool))) (sent : List Nat) :
    ∀ p ∈ (sweep_run sent obs).2,
      p.1 ∈ REMINDER_THRESHOLDS ∧ in_reminder_window p.1 p.2 = true := by
  induction obs generalizing sent with
  | nil => simp [sweep_run]
  | cons q rest ih =>
    rcases q with ⟨s, ok⟩
    intro p hp
    replace hp : p ∈ (sweep_thresholds REMINDER_THRESHOLDS sent s ok).2
        ++ (sweep_run (sweep_thresholds REMINDER_THRESHOLDS sent s ok).1 rest).2 := hp
    rcases List.mem_append.mp hp with h1 | h1
    · exact st_out_window REMINDER_THRESHOLDS sent s ok p h1
    · exact ih (sweep_thresholds REMINDER_THRESHOLDS sent s ok).1 p h1

theorem st_out_mem (L : List Nat) (sent : List Nat) (s : Nat) (ok : Nat → Bool)
    (h : Nat) (hL : h ∈ L) (hns : h ∉ sent)
    (hw : in_reminder_window h s = true) (hok : ok h = true) :
    (h, s) ∈ (sweep_thresholds L sent s ok).2 := by
  induction L generalizing sent with
  | nil => simp at hL
  | cons th rest ih =>
    unfold sweep_thresholds
    by_cases hth : th ∈ sent
    · rw [if_pos hth]
      rcases List.mem_cons.mp hL with rfl | hL2
      · exact absurd hth hns
      · exact ih sent hL2 hns
    · rw [if_neg hth]
      by_cases hw2 : in_reminder_window th s = true
      · by_cases hok2 : ok th = true
        · rw [if_pos hw2, if_pos hok2]
          show (h, s) ∈ (th, s) :: (sweep_thresholds rest (sent ++ [th]) s ok).2
          by_cases hh : h = th
          · rw [hh]
            exact List.mem_cons_self _ _
          · have hL2 : h ∈ rest := by
              rcases List.mem_cons.mp hL with c | c
              · exact absurd c hh
              · exact c
            apply List.mem_cons_of_mem
            apply ih (sent ++ [th]) hL2
            intro c
            rcases List.mem_append.mp c with c1 | c1
            · exact hns c1
            · exact hh (by simpa using c1)
        · rw [if_pos hw2, if_neg hok2]
          by_cases hh : h = th
          · rw [hh] at hok
            exact absurd hok hok2
          · have hL2 : h ∈ rest := by
              rcases List.mem_cons.mp hL with c | c
              · exact absurd c hh
              · exact c
            exact ih sent hL2 hns
      · by_cases hh : h = th
        · rw [hh] at hw
          exact absurd hw hw2
        · rw [if_neg hw2]
          have hL2 : h ∈ rest := by
            rcases List.mem_cons.mp hL with c | c
            · exact absurd c hh
            · exact c
          exact ih sent hL2 hns

/-- C8: for a fixed (thread, last_bid_at) epoch and a configured threshold,
a run of sweep iterations (with deliveries succeeding) sends exactly one
reminder when at least one iteration observes a seconds-left value inside
the half-open window (3600h − 1800, 3600h], and none otherwise; every
delivered reminder was triggered by an in-window observation; and an
accepted bid rewrites `last_bid_at` to the bid time, so the marker key
`(thread_id, last_bid_at)` changes whenever the bid lands at a different
epoch second, which is what resets all thresholds. -/
theorem c8_reminder_exactly_once :
    (∀ (h : Nat), h ∈ REMINDER_THRESHOLDS → ∀ (obs : List Nat),
       count_threshold h
           (sweep_run [] (obs.map (fun s => (s, fun _ => true)))).2
         = if ∃ s ∈ obs, in_reminder_window h s = true then 1 else 0)
  ∧ (∀ (sent : List Nat) (obs : List (Nat × (Nat → Bool)))
       (p : Nat × Nat), p ∈ (sweep_run sent obs).2 →
       in_reminder_window p.1 p.2 = true)
  ∧ (∀ (db : DB) (now tid amount uid : Nat) (nm : String) (a : Auction),
       get_auction_by_thread db tid = some a → a.status = "active" →
       a.current_bid < amount →
       (place_bid db now tid amount uid nm).1
         = some { a with current_bid := amount, current_bidder_id := some uid
                         current_bidder_name := some nm, last_bid_at := now }
       ∧ (now ≠ a.last_bid_at → (tid, now) ≠ (tid, a.last_bid_at))) := by
  refine ⟨?_, ?_, ?_⟩
  · intro h hm obs
    rw [run_count h hm (obs.map fun s => (s, fun _ => true)) []]
    have hiff : (h ∉ ([] : List Nat)
        ∧ ∃ p ∈ obs.map (fun s => (s, fun _ : Nat => true)),
            in_reminder_window h p.1 = true ∧ p.2 h = true)
        ↔ (∃ s ∈ obs, in_reminder_window h s = true) := by
      simp
    simp only [hiff]
  · intro sent obs p hp
    exact (run_out_window obs sent p hp).2
  · intro db now tid amount uid nm a hget hact hlt
    have htid := (get_mem db tid a hget).2
    have hcond : (a.thread_id == tid && a.status == "active") = true := by
      simp [htid, hact]
    have hupd : get_auction_by_thread (bid_update db now tid amount uid nm) tid
        = some { a with current_bid := amount, current_bidder_id := some uid
                        current_bidder_name := some nm, last_bid_at := now } := by
      rw [bid_update_get, hget, Option.map_some', if_pos hcond]
    have h3 : ¬ amount ≤ a.current_bid := by omega
    constructor
    · show (place_bid db now tid amount uid nm).1 = _
      unfold place_bid
      simp only [hget]
      rw [if_neg h3]
      exact hupd
    · intro hne hc
      exact hne (by simpa using hc)

/-- C8 witness: threshold 6, three observed values (two inside the 6-hour
window, one inside the 1-hour window) yield exactly one 6-hour reminder. -/
theorem c8_witness :
    count_threshold 6
        (sweep_run [] ([20000, 20500, 3000].map (fun s => (s, fun _ => true)))).2
      = 1 := by
  rw [c8_reminder_exactly_once.1 6 (by decide) [20000, 20500, 3000]]
  decide

/-- C10: the reminder marker for a threshold is recorded only after a
successful delivery: a sweep whose sends all raise leaves the marker set
unchanged and delivers nothing; a threshold that is unsent, in-window and
whose send succeeds is both delivered and recorded; and after a failed
in-window attempt, a later in-window sweep with a working send delivers the
reminder exactly once. -/
theorem c10_marker_after_delivery :
    (∀ (sent : List Nat) (s : Nat),
       sweep_thresholds REMINDER_THRESHOLDS sent s (fun _ => false) = (sent, []))
  ∧ (∀ (h s : Nat) (sent : List Nat), h ∈ REMINDER_THRESHOLDS → h ∉ sent →
       in_reminder_window h s = true →
       h ∈ (sweep_thresholds REMINDER_THRESHOLDS sent s (fun _ => true)).1
       ∧ (h, s) ∈ (sweep_thresholds REMINDER_THRESHOLDS sent s (fun _ => true)).2)
  ∧ (∀ (h s1 s2 : Nat), h ∈ REMINDER_THRESHOLDS →
       in_reminder_window h s1 = true → in_reminder_window h s2 = true →
       count_threshold h
           (sweep_run [] [(s1, fun _ => false), (s2, fun _ => true)]).2 = 1) := by
  refine ⟨?_, ?_, ?_⟩
  · intro sent s
    exact st_all_fail REMINDER_THRESHOLDS sent s
  · intro h s sent hm hns hw
    constructor
    · exact (st_sent_mem REMINDER_THRESHOLDS sent s (fun _ => true) h).mpr
        (Or.inr ⟨hm, hns, hw, rfl⟩)
    · exact st_out_mem REMINDER_THRESHOLDS sent s (fun _ => true) h hm hns hw rfl
  · intro h s1 s2 hm hw1 hw2
    have e1 : sweep_thresholds REMINDER_THRESHOLDS [] s1 (fun _ => false) = ([], []) :=
      st_all_fail REMINDER_THRESHOLDS [] s1
    show count_threshold h
        ((sweep_thresholds REMINDER_THRESHOLDS [] s1 (fun _ => false)).2
          ++ (sweep_run (sweep_thresholds REMINDER_THRESHOLDS [] s1 (fun _ => false)).1
                [(s2, fun _ => true)]).2) = 1
    rw [e1]
    show count_threshold h
        ((sweep_thresholds REMINDER_THRESHOLDS [] s2 (fun _ => true)).2 ++ []) = 1
    rw [List.append_nil,
        st_count REMINDER_THRESHOLDS thresholds_nodup [] s2 (fun _ => true) h,
        if_pos ⟨hm, by simp, hw2, rfl⟩]

/-- C10 witness: threshold 6; the first sweep (send raising) marks nothing,
the second (send working, still in-window) delivers; and the retried sweep
records and delivers the reminder. -/
theorem c10_witness :
    count_threshold 6 (sweep_run [] [(20000, fun _ => false), (21000, fun _ => true)]).2 = 1
    ∧ (6, 21000) ∈ (sweep_thresholds REMINDER_THRESHOLDS [] 21000 (fun _ => true)).2 :=
  ⟨c10_marker_after_delivery.2.2 6 20000 21000 (by decide) (by decide) (by decide),
   (c10_marker_after_delivery.2.1 6 21000 [] (by decide) (by decide) (by decide)).2⟩
